import Mathlib

/-!
Verification of the Identity Reconciliation & Query Resolution Engine of the
Networking-Wingman repository, as a shallow embedding in Lean 4.

The definitions below are translated from the TypeScript source:
  - src/lib/reconciliation.ts        (confidence router)
  - src/store/useAppStore.ts         (record store, merge engine, load-time dedup)
  - src/lib/deleted-cards.ts         (tombstone set)
  - src/hooks/useReconciliation.ts   (reconcile proposal application loop)
  - src/hooks (useDeduplication, useAutoPersist)  (dedup-agent merges, auto-persist)
  - src/app/page.tsx                 (candidate aggregator entity application)
  - src/lib/deleted-cards.ts voice-query half (query resolver)

JavaScript semantics that matter are modelled explicitly:
  - string truthiness: null and the empty string are falsy (jsTruthy, jsOr);
  - numeric confidence values and the 1.3 / 0.15 resolver constants are
    modelled as exact rationals;
  - Array.prototype.sort with comparator (a, b) => b.score - a.score is a
    stable descending sort (modelled by a stable insertion sort);
  - String.prototype.split on a whitespace run regex is modelled by splitting
    at whitespace and dropping empty fragments (every consumer in the source
    filters fragments by a minimum length, so the two agree at every use site).
-/

namespace NetworkingWingman

/-- JS String.prototype.toLowerCase (ASCII case mapping, character-wise). -/
def jsToLower (s : String) : String :=
  String.mk (s.data.map Char.toLower)

/-- JS String.prototype.trim: strip whitespace from both ends. -/
def jsTrim (s : String) : String :=
  String.mk (((s.data.dropWhile Char.isWhitespace).reverse.dropWhile Char.isWhitespace).reverse)

/-- JS s.startsWith(p) / p being a prefix of s. -/
def strIsPrefixOf (p s : String) : Bool :=
  List.isPrefixOf p.data s.data

/-- JS truthiness for a nullable string: null and the empty string are falsy. -/
def jsTruthy : Option String → Bool
  | none => false
  | some s => s != ""

/-- JS expression a short-circuit-or b for nullable strings. -/
def jsOr (a b : Option String) : Option String :=
  if jsTruthy a then a else b

/-- JS expression a short-circuit-or b for plain strings ("" is falsy). -/
def strOr (a b : String) : String :=
  if a != "" then a else b

/-- Length in characters of a nullable string, null counting as "". -/
def optLen (o : Option String) : Nat :=
  (o.getD "").length

/-- Splits at whitespace and drops empty fragments: the behaviour of the
source's split on a whitespace-run regex at every use site (all consumers
filter the fragments by a minimum length, so leading empties never matter). -/
def jsSplitWs (s : String) : List String :=
  ((s.data.foldr
    (fun c acc =>
      if c.isWhitespace then [] :: acc
      else
        match acc with
        | [] => [[c]]
        | w :: ws => (c :: w) :: ws)
    ([] : List (List Char))).map String.mk).filter (fun w => w != "")

/-- JS slice(-n) on a string: the final n characters (whole string if shorter). -/
def jsSliceLast (n : Nat) (s : String) : String :=
  String.mk (s.toList.drop (s.toList.length - n))

/-- needle-in-haystack test on character lists (JS String.prototype.includes). -/
def listContainsInfix (hay needle : List Char) : Bool :=
  match hay with
  | [] => needle.isEmpty
  | _ :: t => needle.isPrefixOf hay || listContainsInfix t needle

/-- JS hay.includes(needle). -/
def containsSubstr (hay needle : String) : Bool :=
  listContainsInfix hay.toList needle.toList

/-- Uppercase hexadecimal digit for a value below 16. -/
def hexDigit (n : Nat) : Char :=
  if n < 10 then Char.ofNat (48 + n) else Char.ofNat (55 + n)

/-- UTF-8 bytes of a character, as numbers. -/
def utf8Bytes (c : Char) : List Nat :=
  let n := c.toNat
  if n < 0x80 then [n]
  else if n < 0x800 then [0xC0 + n / 0x40, 0x80 + n % 0x40]
  else if n < 0x10000 then
    [0xE0 + n / 0x1000, 0x80 + (n / 0x40) % 0x40, 0x80 + n % 0x40]
  else
    [0xF0 + n / 0x40000, 0x80 + (n / 0x1000) % 0x40, 0x80 + (n / 0x40) % 0x40, 0x80 + n % 0x40]

/-- Characters URLSearchParams serialises verbatim (application/x-www-form-urlencoded). -/
def isFormSafe (c : Char) : Bool :=
  (c ≥ 'A' && c ≤ 'Z') || (c ≥ 'a' && c ≤ 'z') || (c ≥ '0' && c ≤ '9') ||
  c = '*' || c = '-' || c = '.' || c = '_'

/-- application/x-www-form-urlencoded encoding of one character. -/
def encodeFormChar (c : Char) : String :=
  if c = ' ' then "+"
  else if isFormSafe c then String.singleton c
  else String.join ((utf8Bytes c).map (fun b =>
    "%" ++ String.singleton (hexDigit (b / 16)) ++ String.singleton (hexDigit (b % 16))))

/-- application/x-www-form-urlencoded encoding of a string (URLSearchParams). -/
def formUrlEncode (s : String) : String :=
  String.join (s.toList.map encodeFormChar)

/-- Person category enum from useAppStore.ts. -/
inductive PersonCategory where
  | founder
  | vc
  | developer
  | designer
  | student
  | executive
  | other
deriving DecidableEq

/-- Action item from useAppStore.ts (createdAt modelled as a numeric instant). -/
structure ActionItem where
  id : String
  text : String
  createdAt : Nat
deriving DecidableEq

/-- PersonCard from useAppStore.ts (createdAt modelled as a numeric instant). -/
structure PersonCard where
  id : String
  sessionId : Option String
  name : Option String
  company : Option String
  role : Option String
  category : PersonCategory
  summary : Option String
  linkedInUrl : Option String
  actionItems : List ActionItem
  transcriptSnippet : String
  createdAt : Nat
  isActive : Bool
deriving DecidableEq

/-- generateLinkedInUrl from useAppStore.ts: base search URL with
URLSearchParams keywords/origin and an optional quoted company. -/
def generateLinkedInUrl (name : String) (company : Option String) : String :=
  let params := [("keywords", name), ("origin", "FACETED_SEARCH")] ++
    (if jsTruthy company then [("company", "\"" ++ company.getD "" ++ "\"")] else [])
  "https://www.linkedin.com/search/results/people/?" ++
    String.intercalate "&" (params.map (fun p => formUrlEncode p.1 ++ "=" ++ formUrlEncode p.2))

/-- The slice of useAppStore state the reconciliation engine reads and writes
(UI-only fields such as search and greeting state are omitted). -/
structure AppState where
  isListening : Bool
  sessionId : Option String
  activeCard : Option PersonCard
  historyCards : List PersonCard
  currentTranscript : String
  currentCardStartIndex : Nat
deriving DecidableEq

/-- App state plus the module-level deletedCardIds set of deleted-cards.ts. -/
structure Store where
  state : AppState
  deletedCardIds : List String
deriving DecidableEq

/-- markCardDeleted from deleted-cards.ts (set insertion). -/
def markCardDeleted (cardId : String) (deletedCardIds : List String) : List String :=
  if cardId ∈ deletedCardIds then deletedCardIds else cardId :: deletedCardIds

/-- isCardDeleted from deleted-cards.ts. -/
def isCardDeleted (cardId : String) (deletedCardIds : List String) : Bool :=
  cardId ∈ deletedCardIds

/-- A partial field map over a card, the shape of Partial PersonCard as the
extraction and reconciliation pipelines produce it: the outer Option is key
presence, and for nullable fields the inner Option is the (possibly null)
value.  The identity fields id/sessionId/createdAt/isActive are never part of
a pipeline update. -/
structure CardUpdates where
  name : Option (Option String) := none
  company : Option (Option String) := none
  role : Option (Option String) := none
  category : Option PersonCategory := none
  summary : Option (Option String) := none
  linkedInUrl : Option (Option String) := none
  actionItems : Option (List ActionItem) := none
  transcriptSnippet : Option String := none
deriving DecidableEq

/-- JS truthiness of an update-map entry for a nullable string field. -/
def updTruthy : Option (Option String) → Bool
  | some (some s) => s != ""
  | _ => false

/-- The string value of a truthy update-map entry. -/
def updVal (u : Option (Option String)) : String :=
  (u.getD none).getD ""

/-- JS object spread: apply the present keys of the update map to a card. -/
def applyChanges (card : PersonCard) (u : CardUpdates) : PersonCard :=
  { card with
    name := u.name.getD card.name
    company := u.company.getD card.company
    role := u.role.getD card.role
    category := u.category.getD card.category
    summary := u.summary.getD card.summary
    linkedInUrl := u.linkedInUrl.getD card.linkedInUrl
    actionItems := u.actionItems.getD card.actionItems
    transcriptSnippet := u.transcriptSnippet.getD card.transcriptSnippet }

/-- createNewCard from useAppStore.ts.  The id of the fresh card and the
current instant are passed in (crypto.randomUUID() / new Date() in source). -/
def createNewCard (newId : String) (now : Nat) (s : AppState) : AppState :=
  let newCard : PersonCard :=
    { id := newId
      sessionId := s.sessionId
      name := none
      company := none
      role := none
      category := .other
      summary := none
      linkedInUrl := none
      actionItems := []
      transcriptSnippet := ""
      createdAt := now
      isActive := true }
  { s with
    activeCard := some newCard
    historyCards :=
      match s.activeCard with
      | some a => { a with isActive := false } :: s.historyCards
      | none => s.historyCards
    currentCardStartIndex := s.currentTranscript.length }

/-- updateActiveCard from useAppStore.ts: drops any actionItems key from the
update map, spreads the rest onto the active card, and regenerates the
LinkedIn URL when a name arrives (and none is set) or the company changes
(and a name is known).  No active card means no change at all. -/
def updateActiveCard (updates : CardUpdates) (s : AppState) : AppState :=
  match s.activeCard with
  | none => s
  | some activeCard =>
    let safeUpdates := { updates with actionItems := none }
    let updatedCard := applyChanges activeCard safeUpdates
    let updatedCard :=
      if updTruthy updates.name && !(jsTruthy updatedCard.linkedInUrl) then
        { updatedCard with
          linkedInUrl := some (generateLinkedInUrl (updVal updates.name) updatedCard.company) }
      else updatedCard
    let updatedCard :=
      if updTruthy updates.company && jsTruthy updatedCard.name then
        { updatedCard with
          linkedInUrl := some (generateLinkedInUrl (updatedCard.name.getD "") (updVal updates.company)) }
      else updatedCard
    { s with activeCard := some updatedCard }

/-- moveActiveToHistory from useAppStore.ts. -/
def moveActiveToHistory (s : AppState) : AppState :=
  match s.activeCard with
  | none => s
  | some activeCard =>
    { s with
      activeCard := none
      historyCards := { activeCard with isActive := false } :: s.historyCards }

/-- setTranscript from useAppStore.ts: stores the transcript and mirrors its
tail into the active card's snippet. -/
def setTranscript (text : String) (s : AppState) : AppState :=
  { s with
    currentTranscript := text
    activeCard := s.activeCard.map (fun a => { a with transcriptSnippet := jsSliceLast 200 text }) }

/-- addActionItem from useAppStore.ts: appends a trimmed, non-blank item to
the active card.  The fresh item id and instant are passed in. -/
def addActionItem (text : String) (newId : String) (now : Nat) (s : AppState) : AppState :=
  match s.activeCard with
  | none => s
  | some activeCard =>
    if jsTrim text = "" then s
    else
      { s with
        activeCard := some
          { activeCard with
            actionItems := activeCard.actionItems ++ [{ id := newId, text := jsTrim text, createdAt := now }] } }

/-- endSession from useAppStore.ts (in-memory part): stop listening, move the
active card to history, clear the transcript. -/
def endSession (s : AppState) : AppState :=
  { s with
    isListening := false
    activeCard := none
    historyCards :=
      match s.activeCard with
      | some a => { a with isActive := false } :: s.historyCards
      | none => s.historyCards
    currentTranscript := ""
    currentCardStartIndex := 0 }

/-- The merged card computed inside mergeCards in useAppStore.ts (the block
building the merged constant, including the LinkedIn URL regeneration). -/
def mergedCard (targetCard sourceCard : PersonCard) : PersonCard :=
  let mergedName :=
    if optLen targetCard.name ≥ optLen sourceCard.name then
      jsOr targetCard.name sourceCard.name
    else
      jsOr sourceCard.name targetCard.name
  let merged : PersonCard :=
    { targetCard with
      name := mergedName
      company := jsOr targetCard.company sourceCard.company
      role := jsOr targetCard.role sourceCard.role
      category :=
        if targetCard.category ≠ .other then targetCard.category else sourceCard.category
      summary :=
        if jsTruthy targetCard.summary && jsTruthy sourceCard.summary then
          some (targetCard.summary.getD "" ++ ". " ++ sourceCard.summary.getD "")
        else jsOr targetCard.summary sourceCard.summary
      linkedInUrl := jsOr targetCard.linkedInUrl sourceCard.linkedInUrl
      actionItems :=
        targetCard.actionItems.filter (fun ti => ti.id != "" && ti.text != "") ++
        sourceCard.actionItems.filter (fun si =>
          si.id != "" && si.text != "" &&
          !(targetCard.actionItems.any (fun ti =>
            ti.text != "" && jsToLower ti.text == jsToLower si.text)))
      transcriptSnippet := strOr targetCard.transcriptSnippet sourceCard.transcriptSnippet }
  if jsTruthy merged.name then
    { merged with linkedInUrl := some (generateLinkedInUrl (merged.name.getD "") merged.company) }
  else merged

/-- mergeCards from useAppStore.ts: finds both cards among active plus
history, tombstones the source id, installs the merged card and drops the
source from state (the server-side persistence call is external). -/
def mergeCards (sourceCardId targetCardId : String) (st : Store) : Store :=
  let s := st.state
  let allCards := (match s.activeCard with | some a => [a] | none => []) ++ s.historyCards
  match allCards.find? (fun c => c.id = sourceCardId), allCards.find? (fun c => c.id = targetCardId) with
  | some sourceCard, some targetCard =>
    let deleted := markCardDeleted sourceCardId st.deletedCardIds
    let merged := mergedCard targetCard sourceCard
    let newState :=
      if s.activeCard.any (fun a => a.id = targetCardId) then
        { s with
          activeCard := some merged
          historyCards := s.historyCards.filter (fun c => c.id ≠ sourceCardId) }
      else if s.activeCard.any (fun a => a.id = sourceCardId) then
        { s with
          activeCard := none
          historyCards :=
            (s.historyCards.map (fun c => if c.id = targetCardId then merged else c)).filter
              (fun c => c.id ≠ sourceCardId) }
      else
        { s with
          historyCards :=
            (s.historyCards.map (fun c => if c.id = targetCardId then merged else c)).filter
              (fun c => c.id ≠ sourceCardId) }
    { state := newState, deletedCardIds := deleted }
  | _, _ => st

/-- RoutingAction from reconciliation.ts. -/
inductive RoutingAction where
  | autoApply
  | suggest
  | discard
deriving DecidableEq

/-- ReconciliationUpdate from reconciliation.ts; numeric confidence is
modelled as an exact rational. -/
structure ReconciliationUpdate where
  cardId : String
  changes : CardUpdates
  confidence : ℚ
  reason : String
deriving DecidableEq

/-- ReconciliationMerge from reconciliation.ts. -/
structure ReconciliationMerge where
  sourceCardId : String
  targetCardId : String
  confidence : ℚ
  reason : String
deriving DecidableEq

/-- RoutedUpdate from reconciliation.ts. -/
structure RoutedUpdate where
  update : ReconciliationUpdate
  action : RoutingAction
deriving DecidableEq

/-- RoutedMerge from reconciliation.ts. -/
structure RoutedMerge where
  merge : ReconciliationMerge
  action : RoutingAction
deriving DecidableEq

/-- routeByConfidence from reconciliation.ts: the pure confidence-to-action
mapping shared by updates and merges. -/
def routeByConfidence (confidence : ℚ) : RoutingAction :=
  if confidence > 90 then .autoApply
  else if confidence ≥ 60 then .suggest
  else .discard

/-- routeUpdate from reconciliation.ts. -/
def routeUpdate (update : ReconciliationUpdate) : RoutedUpdate :=
  { update := update, action := routeByConfidence update.confidence }

/-- routeMerge from reconciliation.ts. -/
def routeMerge (merge : ReconciliationMerge) : RoutedMerge :=
  { merge := merge, action := routeByConfidence merge.confidence }

/-- The proposal-application half of reconcile in useReconciliation.ts: every
routed update whose action is not discard is applied (to the active card via
updateActiveCard when the id matches the activeCard snapshot taken at the
start of reconcile, else spread onto the matching history card), then every
routed merge whose action is not discard is applied via mergeCards. -/
def applyReconcileResult (updates : List ReconciliationUpdate)
    (merges : List ReconciliationMerge) (st : Store) : Store :=
  let activeCard0 := st.state.activeCard
  let st1 := updates.foldl (fun acc u =>
    let routed := routeUpdate u
    if routed.action = .discard then acc
    else if activeCard0.any (fun a => u.cardId = a.id) then
      { acc with state := updateActiveCard u.changes acc.state }
    else
      { acc with state :=
          { acc.state with
            historyCards := acc.state.historyCards.map (fun card =>
              if card.id = u.cardId then applyChanges card u.changes else card) } }) st
  merges.foldl (fun acc m =>
    let routed := routeMerge m
    if routed.action = .discard then acc
    else mergeCards m.sourceCardId m.targetCardId acc) st1

/-- One iteration of the merge loop of runDedup in useDeduplication.ts:
skip a merge at confidence of 90 or below, skip when either card was already
part of a merge in this batch, verify both cards still exist in history, then
merge and record both ids as used. -/
def dedupMergeStep (mergedCardIds : List String) (st : Store)
    (m : ReconciliationMerge) : List String × Store :=
  if m.confidence ≤ 90 then (mergedCardIds, st)
  else if m.sourceCardId ∈ mergedCardIds ∨ m.targetCardId ∈ mergedCardIds then
    (mergedCardIds, st)
  else
    let current := st.state.historyCards
    if current.any (fun c => c.id = m.sourceCardId) &&
       current.any (fun c => c.id = m.targetCardId) then
      (m.targetCardId :: m.sourceCardId :: mergedCardIds,
        mergeCards m.sourceCardId m.targetCardId st)
    else (mergedCardIds, st)

/-- The merge loop of runDedup in useDeduplication.ts over a batch of
dedup-agent merge proposals. -/
def runDedupMerges (merges : List ReconciliationMerge) (st : Store) : Store :=
  (merges.foldl (fun acc m => dedupMergeStep acc.1 acc.2 m) ([], st)).2

/-- The card fingerprint of useAutoPersist.ts, as the tuple of hashed fields. -/
structure CardFingerprint where
  name : Option String
  company : Option String
  role : Option String
  category : PersonCategory
  summary : Option String
  linkedInUrl : Option String
  actionItemCount : Nat
deriving DecidableEq

/-- cardFingerprint from useAutoPersist.ts. -/
def cardFingerprint (card : PersonCard) : CardFingerprint :=
  { name := card.name
    company := card.company
    role := card.role
    category := card.category
    summary := card.summary
    linkedInUrl := card.linkedInUrl
    actionItemCount := (card.actionItems.filter (fun ai => ai.id != "" && ai.text != "")).length }

/-- The row persistCard upserts into person_cards. -/
structure PersistRow where
  id : String
  sessionId : String
  userId : String
  name : Option String
  company : Option String
  role : Option String
  category : PersonCategory
  summary : Option String
  linkedInUrl : Option String
  transcript : String
deriving DecidableEq

/-- The decision part of persistCard in useAutoPersist.ts: returns the row it
would upsert, or none when the write is skipped (deleted card, unchanged
fingerprint, unnamed card, or missing session/user). -/
def persistCard (deletedCardIds : List String)
    (persistedCardVersions : List (String × CardFingerprint))
    (card : PersonCard) (sessionId userId : Option String) : Option PersistRow :=
  if isCardDeleted card.id deletedCardIds then none
  else if (persistedCardVersions.lookup card.id) = some (cardFingerprint card) then none
  else if !(jsTruthy card.name) || !(jsTruthy sessionId) || !(jsTruthy userId) then none
  else
    let effectiveSessionId := jsOr card.sessionId sessionId
    if !(jsTruthy effectiveSessionId) then none
    else some
      { id := card.id
        sessionId := effectiveSessionId.getD ""
        userId := userId.getD ""
        name := card.name
        company := card.company
        role := card.role
        category := card.category
        summary := card.summary
        linkedInUrl := card.linkedInUrl
        transcript := card.transcriptSnippet }

/-- (x || '').toLowerCase().trim() — the normalisation applied to names,
companies and roles throughout the load-time dedup of useAppStore.ts. -/
def normStr (o : Option String) : String :=
  jsTrim (jsToLower (o.getD ""))

/-- Normalised name of a card. -/
def normName (card : PersonCard) : String := normStr card.name

/-- Normalised company of a card. -/
def normCompany (card : PersonCard) : String := normStr card.company

/-- Normalised role of a card. -/
def normRole (card : PersonCard) : String := normStr card.role

/-- isPartialNameMatch from loadFromDatabase in useAppStore.ts: one
normalised name must be a whitespace-prefix of the other, confirmed by same
company or same role. -/
def isPartialNameMatch (a b : PersonCard) : Bool :=
  let nameA := normName a
  let nameB := normName b
  if nameA = "" || nameB = "" || nameA = nameB then false
  else
    let shorter := if nameA.length < nameB.length then nameA else nameB
    let longer := if nameA.length < nameB.length then nameB else nameA
    if !(strIsPrefixOf (shorter ++ " ") longer) then false
    else if normCompany a != "" && normCompany b != "" && normCompany a == normCompany b then
      true
    else
      normRole a != "" && normRole b != "" && normRole a == normRole b

/-- The body of the exact-name-match loop of loadFromDatabase: an existing
card with the same normalised name may absorb the new card unless their
companies are both present and different, or their roles are both present
and different. -/
def exactCompatible (card existing : PersonCard) : Bool :=
  if normCompany card != "" && normCompany existing != "" &&
     normCompany card != normCompany existing then false
  else
    !(normRole card != "" && normRole existing != "" && normRole card != normRole existing)

/-- The merge-into-existing block of loadFromDatabase in useAppStore.ts
(keep the longer name, fill empty fields, concatenate summaries, dedup action
items case-insensitively, regenerate the LinkedIn URL). -/
def loadMergeInto (existing card : PersonCard) : PersonCard :=
  let keepName :=
    if optLen existing.name ≥ optLen card.name then existing.name else card.name
  let m : PersonCard :=
    { existing with
      name := keepName
      company := jsOr existing.company card.company
      role := jsOr existing.role card.role
      category :=
        if existing.category ≠ .other then existing.category else card.category
      summary :=
        if jsTruthy existing.summary && jsTruthy card.summary then
          some (existing.summary.getD "" ++ ". " ++ card.summary.getD "")
        else jsOr existing.summary card.summary
      linkedInUrl := jsOr existing.linkedInUrl card.linkedInUrl
      actionItems :=
        existing.actionItems ++
        card.actionItems.filter (fun ai =>
          ai.text != "" &&
          !(existing.actionItems.any (fun eai =>
            eai.text != "" && jsToLower eai.text == jsToLower ai.text)))
      transcriptSnippet := strOr existing.transcriptSnippet card.transcriptSnippet }
  if jsTruthy m.name then
    { m with linkedInUrl := some (generateLinkedInUrl (m.name.getD "") m.company) }
  else m

/-- Replace-or-append on an association list (the Map set operation). -/
def setAssoc (l : List (String × List Nat)) (k : String) (v : List Nat) :
    List (String × List Nat) :=
  match l with
  | [] => [(k, v)]
  | (k2, v2) :: t => if k2 = k then (k, v) :: t else (k2, v2) :: setAssoc t k v

/-- Accumulator of the load-time dedup loop: the deduped list, the
seenByName index (normalised name to indices into deduped), and the ids
passed to markCardDeleted (duplicates merged away). -/
structure LoadDedupAcc where
  deduped : List PersonCard
  seenByName : List (String × List Nat)
  deletedIds : List String
deriving DecidableEq

/-- One iteration of the for-loop over rawCards in loadFromDatabase: an
unnamed card is kept as is; otherwise the card merges into the first
compatible exact-name match, else into the first partial-name match, else it
is appended and indexed. -/
def loadDedupStep (acc : LoadDedupAcc) (card : PersonCard) : LoadDedupAcc :=
  let key := normName card
  if key = "" then { acc with deduped := acc.deduped ++ [card] }
  else
    let exactIndices := (acc.seenByName.lookup key).getD []
    let exactIdx := exactIndices.find? (fun idx =>
      match acc.deduped.get? idx with
      | some existing => exactCompatible card existing
      | none => false)
    let matchIdx :=
      match exactIdx with
      | some i => some i
      | none => acc.deduped.findIdx? (fun e => isPartialNameMatch card e)
    match matchIdx with
    | some idx =>
      match acc.deduped.get? idx with
      | some existing =>
        let seen := (acc.seenByName.lookup key).getD []
        { deduped := acc.deduped.set idx (loadMergeInto existing card)
          seenByName :=
            if idx ∈ seen then acc.seenByName else setAssoc acc.seenByName key (seen ++ [idx])
          deletedIds := acc.deletedIds ++ [card.id] }
      | none => acc
    | none =>
      { deduped := acc.deduped ++ [card]
        seenByName :=
          setAssoc acc.seenByName key (((acc.seenByName.lookup key).getD []) ++ [acc.deduped.length])
        deletedIds := acc.deletedIds }

/-- The client-side dedup of loadFromDatabase in useAppStore.ts over the cards
loaded from the database: the deduped card list and the ids merged away. -/
def dedupLoadedCards (rawCards : List PersonCard) : List PersonCard × List String :=
  let acc := rawCards.foldl loadDedupStep { deduped := [], seenByName := [], deletedIds := [] }
  (acc.deduped, acc.deletedIds)

/-- loadFromDatabase from useAppStore.ts as a store operation: the rows read
from the database (already mapped to cards) are deduped and installed as the
history, and each merged-away duplicate id is marked deleted.  The incoming
rows themselves are NOT filtered against deletedCardIds. -/
def loadFromDatabase (rows : List PersonCard) (st : Store) : Store :=
  let res := dedupLoadedCards rows
  { state := { st.state with historyCards := res.1 }
    deletedCardIds := res.2.foldl (fun d i => markCardDeleted i d) st.deletedCardIds }

/-- A candidate attribute set returned by the extraction oracle
(useEntityExtraction), as consumed by the Home component in page.tsx. -/
structure ExtractedEntities where
  name : Option String
  company : Option String
  role : Option String
  category : Option PersonCategory
  summary : Option String
  actionItems : List String
  isNewPerson : Bool
deriving DecidableEq

/-- The in-place update map built for the active card by the entity
extraction effect in page.tsx (the non-new-person path): fill-empty-only for
name/company/role, fill-if-other for category, always replace summary. -/
def buildEntityUpdates (entities : ExtractedEntities) (activeCard : PersonCard)
    (isSelf : Bool) : CardUpdates :=
  { name :=
      if jsTruthy entities.name && !(jsTruthy activeCard.name) && !isSelf then
        some entities.name
      else none
    company :=
      if jsTruthy entities.company && !(jsTruthy activeCard.company) then
        some entities.company
      else none
    role :=
      if jsTruthy entities.role && !(jsTruthy activeCard.role) then
        some entities.role
      else none
    category :=
      if entities.category.isSome && activeCard.category = .other then
        entities.category
      else none
    summary := if jsTruthy entities.summary then some entities.summary else none }

/-- STOP_WORDS from the voice-query half of deleted-cards.ts. -/
def STOP_WORDS : List String :=
  ["the", "that", "this", "from", "who", "was", "were", "with", "about",
   "person", "guy", "woman", "man", "lady", "one", "they", "their", "them",
   "does", "did", "had", "has", "have", "been", "being",
   "works", "working", "worked", "like", "said", "told", "met",
   "talked", "spoke", "know", "think", "remember", "recall",
   "somebody", "someone", "something", "some", "any",
   "and", "but", "also", "not", "what", "which", "where", "when",
   "can", "could", "would", "should", "will", "shall",
   "his", "her", "its", "our", "your", "name", "company"]

/-- CATEGORY_KEYWORDS from the voice-query half of deleted-cards.ts. -/
def CATEGORY_KEYWORDS : List (PersonCategory × List String) :=
  [(.founder, ["founder", "founded", "started", "startup", "ceo", "entrepreneur", "cofounder"]),
   (.vc, ["investor", "vc", "venture", "fund", "capital", "angel", "invest", "investing", "partner"]),
   (.developer, ["developer", "engineer", "programmer", "coder", "tech", "software", "backend", "frontend", "fullstack"]),
   (.designer, ["designer", "design", "creative", "ux", "ui", "figma", "visual", "graphic"]),
   (.student, ["student", "intern", "university", "college", "school", "grad", "phd", "masters"]),
   (.executive, ["executive", "director", "vp", "chief", "head", "president", "officer", "cto", "cfo", "coo"])]

/-- extractMeaningfulWords from deleted-cards.ts. -/
def extractMeaningfulWords (text : String) : List String :=
  (jsSplitWs (jsToLower text)).filter (fun w => w.length > 2 && !(STOP_WORDS.contains w))

/-- ScoredMatch from deleted-cards.ts (the display-only matchReasons list is
omitted; it never feeds back into control flow). -/
structure ScoredMatch where
  card : PersonCard
  score : Nat
deriving DecidableEq

/-- The per-card additive score of scoreCardsAgainstQuery in
deleted-cards.ts: full-name 100 or 50 per name token; company verbatim 40 or
25 per partial company word; role verbatim 30 or 20 per role keyword;
category keyword 15; summary keywords 5 each capped at 25; action-item
keywords 8 each capped at 16. -/
def scoreCardAgainstQuery (desc : String) (words : List String) (card : PersonCard) : Nat :=
  let cardName := jsToLower (card.name.getD "")
  let cardCompany := jsToLower (card.company.getD "")
  let cardRole := jsToLower (card.role.getD "")
  let cardSummary := jsToLower (card.summary.getD "")
  let nameScore :=
    if cardName != "" && containsSubstr desc cardName then 100
    else if cardName != "" then
      ((jsSplitWs cardName).filter (fun p => p.length > 2)).foldl
        (fun acc part => if words.contains part then acc + 50 else acc) 0
    else 0
  let companyScore :=
    if cardCompany = "" then 0
    else if containsSubstr desc cardCompany then 40
    else
      ((jsSplitWs cardCompany).filter (fun w => w.length > 3)).foldl
        (fun acc cw =>
          if words.any (fun w => strIsPrefixOf w cw || strIsPrefixOf cw w) then
            acc + 25
          else acc) 0
  let roleScore :=
    if cardRole = "" then 0
    else if containsSubstr desc cardRole then 30
    else
      ((jsSplitWs cardRole).filter (fun w => w.length > 3)).foldl
        (fun acc rw =>
          if words.any (fun w => containsSubstr rw w || containsSubstr w rw) then
            acc + 20
          else acc) 0
  let categoryScore :=
    CATEGORY_KEYWORDS.foldl
      (fun acc ck =>
        if card.category = ck.1 && words.any (fun w => ck.2.contains w) then acc + 15
        else acc) 0
  let summaryScore :=
    if cardSummary = "" then 0
    else
      words.foldl
        (fun acc w =>
          if acc ≥ 25 then acc
          else if w.length > 3 && containsSubstr cardSummary w then acc + 5
          else acc) 0
  let actionScore :=
    if card.actionItems.length > 0 then
      let allActions := String.intercalate " " (card.actionItems.map (fun a => jsToLower a.text))
      words.foldl
        (fun acc w =>
          if acc ≥ 16 then acc
          else if w.length > 3 && containsSubstr allActions w then acc + 8
          else acc) 0
    else 0
  nameScore + companyScore + roleScore + categoryScore + summaryScore + actionScore

/-- Stable insertion of a scored match into a descending list: ties go after
existing entries, the behaviour of the stable JS sort with comparator
(a, b) => b.score - a.score. -/
def insertScored (x : ScoredMatch) : List ScoredMatch → List ScoredMatch
  | [] => [x]
  | y :: ys => if x.score ≤ y.score then y :: insertScored x ys else x :: y :: ys

/-- Stable sort by score descending. -/
def sortByScoreDesc (l : List ScoredMatch) : List ScoredMatch :=
  l.foldl (fun acc x => insertScored x acc) []

/-- scoreCardsAgainstQuery from deleted-cards.ts: score every named card
against the accumulated description, keep positive scores, sort descending
(stable). -/
def scoreCardsAgainstQuery (fullDescription : String) (cards : List PersonCard) :
    List ScoredMatch :=
  if fullDescription = "" || cards.isEmpty then []
  else
    let desc := jsTrim (jsToLower fullDescription)
    let words := extractMeaningfulWords fullDescription
    if words.isEmpty && desc.length < 4 then []
    else
      sortByScoreDesc
        ((cards.filter (fun c => jsTruthy c.name)).filterMap (fun card =>
          let score := scoreCardAgainstQuery desc words card
          if score > 0 then some { card := card, score := score } else none))

/-- resolveVoiceQueryToName from deleted-cards.ts: take the top-scoring card;
below 15 return nothing; when a previous match exists and still scores, stick
with it while the new top is below 1.3 times its score, and also when the
top two are within a 15 percent relative gap and the previous match is the
runner-up. -/
def resolveVoiceQueryToName (fullDescription : String) (cards : List PersonCard)
    (previousMatchName : Option String) : Option String :=
  let scored := scoreCardsAgainstQuery fullDescription cards
  match scored with
  | [] => none
  | best :: rest =>
    if best.score < 15 then none
    else if jsTruthy previousMatchName && best.card.name ≠ previousMatchName then
      let stickWithPrevious :=
        match scored.find? (fun s => s.card.name = previousMatchName) with
        | some previousEntry =>
          decide ((best.score : ℚ) < (previousEntry.score : ℚ) * (13 / 10))
        | none => false
      if stickWithPrevious then previousMatchName
      else
        match rest with
        | second :: _ =>
          if ((best.score : ℚ) - (second.score : ℚ)) / (best.score : ℚ) < 15 / 100 &&
             second.card.name = previousMatchName then
            previousMatchName
          else best.card.name
        | [] => best.card.name
    else best.card.name

/-- The same-session person-switch merge of page.tsx: when an isNewPerson
candidate names someone who already has a card in this session, the
candidate's fields are merged directly into that history card (fresh action
item ids are drawn from itemIds). -/
def sessionMergeEntities (entities : ExtractedEntities) (existingCardId : String)
    (itemIds : Nat → String) (now : Nat) (s : AppState) : AppState :=
  { s with
    historyCards := s.historyCards.map (fun c =>
      if c.id ≠ existingCardId then c
      else
        { c with
          company := jsOr entities.company c.company
          role := jsOr entities.role c.role
          category :=
            match entities.category with
            | some cat => if cat ≠ .other then cat else c.category
            | none => c.category
          summary :=
            if jsTruthy entities.summary then
              if jsTruthy c.summary then
                some (c.summary.getD "" ++ ". " ++ entities.summary.getD "")
              else entities.summary
            else c.summary
          actionItems :=
            c.actionItems ++
            ((entities.actionItems.filter (fun item =>
              item != "" &&
              !(c.actionItems.any (fun ai =>
                ai.text != "" && jsToLower ai.text == jsToLower item)))).enum.map
              (fun p => { id := itemIds p.1, text := p.2, createdAt := now })) }) }

/-- The in-memory store operations of the engine (everything that writes the
record state, except loadFromDatabase which is treated separately). -/
inductive StoreOp where
  | createCard (newId : String) (now : Nat)
  | updateActive (u : CardUpdates)
  | addAction (text newId : String) (now : Nat)
  | moveToHistory
  | sessionEnd
  | transcript (text : String)
  | sessionMerge (entities : ExtractedEntities) (existingCardId : String)
      (itemIds : Nat → String) (now : Nat)
  | merge (sourceCardId targetCardId : String)
  | reconcile (updates : List ReconciliationUpdate) (merges : List ReconciliationMerge)
  | dedupAgent (merges : List ReconciliationMerge)

/-- Run one store operation. -/
def runOp : StoreOp → Store → Store
  | .createCard i n, st => { st with state := createNewCard i n st.state }
  | .updateActive u, st => { st with state := updateActiveCard u st.state }
  | .addAction t i n, st => { st with state := addActionItem t i n st.state }
  | .moveToHistory, st => { st with state := moveActiveToHistory st.state }
  | .sessionEnd, st => { st with state := endSession st.state }
  | .transcript t, st => { st with state := setTranscript t st.state }
  | .sessionMerge e c f n, st => { st with state := sessionMergeEntities e c f n st.state }
  | .merge s t, st => mergeCards s t st
  | .reconcile us ms, st => applyReconcileResult us ms st
  | .dedupAgent ms, st => runDedupMerges ms st

/-- The card id an operation mints, if any (crypto.randomUUID in source). -/
def opFreshCardId : StoreOp → Option String
  | .createCard i _ => some i
  | _ => none

/-- Whether a card with the given id is present in the record state. -/
def presentB (s : AppState) (x : String) : Bool :=
  s.activeCard.any (fun a => a.id = x) || s.historyCards.any (fun c => c.id = x)

/-- The data-model invariant on action item lists (§3 of the spec): every
entry carries an id and a text, and no two entries have case-insensitively
equal text. -/
def itemsWellFormed (l : List ActionItem) : Prop :=
  (∀ a ∈ l, a.id ≠ "" ∧ a.text ≠ "") ∧
  l.Pairwise (fun a b => jsToLower a.text ≠ jsToLower b.text)

instance (l : List ActionItem) : Decidable (itemsWellFormed l) := by
  unfold itemsWellFormed
  infer_instance

/-! Concrete fixtures used as inputs of witnesses and counterexamples. -/

/-- A blank card with a given id. -/
def blankCard (i : String) : PersonCard :=
  { id := i
    sessionId := none
    name := none
    company := none
    role := none
    category := .other
    summary := none
    linkedInUrl := none
    actionItems := []
    transcriptSnippet := ""
    createdAt := 0
    isActive := false }

/-- A state with a session and no cards. -/
def emptyState : AppState :=
  { isListening := true
    sessionId := some "s1"
    activeCard := none
    historyCards := []
    currentTranscript := ""
    currentCardStartIndex := 0 }

def c1card : PersonCard := { blankCard "card-1" with isActive := true }

def c1store : Store :=
  { state := { emptyState with activeCard := some c1card }, deletedCardIds := [] }

def c1update : ReconciliationUpdate :=
  { cardId := "card-1"
    changes := { company := some (some "Stripe") }
    confidence := 75
    reason := "company heard in transcript" }

def c1cardA : PersonCard := blankCard "a"

def c1cardB : PersonCard := { blankCard "b" with company := some "Acme" }

def c1mergeStore : Store :=
  { state := { emptyState with historyCards := [c1cardA, c1cardB] }, deletedCardIds := [] }

def c1merge : ReconciliationMerge :=
  { sourceCardId := "b", targetCardId := "a", confidence := 82, reason := "same person" }

def c1discardUpdate : ReconciliationUpdate :=
  { cardId := "card-1"
    changes := { company := some (some "Figma") }
    confidence := 40
    reason := "weak signal" }

def c3cardX : PersonCard :=
  { blankCard "x" with name := some "Priya", company := some "Stripe" }

def c3cardT : PersonCard :=
  { blankCard "t" with name := some "Priya", company := some "Stripe" }

def c3cardY : PersonCard :=
  { blankCard "y" with name := some "Priya Sharma", company := some "Stripe" }

def c3store0 : Store :=
  { state := { emptyState with historyCards := [c3cardX, c3cardT] }, deletedCardIds := [] }

def c3store1 : Store := mergeCards "x" "t" c3store0

def c3store2 : Store := loadFromDatabase [c3cardX, c3cardY] c3store1

def c4target : PersonCard :=
  { blankCard "t4" with
    name := some "Kwame Asante"
    company := some "Figma"
    category := .other
    summary := some "met at the booth" }

def c4source : PersonCard :=
  { blankCard "s4" with
    name := some "Kwame"
    role := some "design lead"
    category := .designer
    summary := some "leads the design team"
    transcriptSnippet := "so I lead design at Figma" }

def c5target : PersonCard :=
  { blankCard "t5" with
    name := some "Lena"
    actionItems := [{ id := "t1", text := "Email intro", createdAt := 0 }] }

def c5source : PersonCard :=
  { blankCard "s5" with
    name := some "Lena Fischer"
    actionItems :=
      [{ id := "s1", text := "email INTRO", createdAt := 1 },
       { id := "s2", text := "Send deck", createdAt := 2 }] }

def c6cardApple : PersonCard :=
  { blankCard "p-apple" with name := some "Priya Sharma", company := some "Apple" }

def c6cardGoogle : PersonCard :=
  { blankCard "p-google" with name := some "Priya Sharma", company := some "Google" }

def c7cardShort : PersonCard :=
  { blankCard "k-short" with name := some "Kwame", company := some "Figma" }

def c7cardLong : PersonCard :=
  { blankCard "k-long" with name := some "Kwame Asante", company := some "Figma" }

def c8cardP : PersonCard :=
  { blankCard "p8" with
    name := some "Priya Desai"
    role := some "payments engineering" }

def c8cardB : PersonCard :=
  { blankCard "b8" with
    name := some "Bora Kim"
    summary := some "sent invoices via stripe"
    actionItems :=
      [{ id := "a1", text := "review stripe dashboard", createdAt := 0 },
       { id := "a2", text := "check invoices", createdAt := 0 }] }

def c8desc : String := "stripe payments invoices"

def c8cards : List PersonCard := [c8cardB, c8cardP]

def c9card : PersonCard := { blankCard "card-9" with category := .founder, isActive := true }

def c9store : Store :=
  { state := { emptyState with activeCard := some c9card }, deletedCardIds := [] }

def c9update : ReconciliationUpdate :=
  { cardId := "card-9"
    changes := { category := some .developer }
    confidence := 95
    reason := "transcript indicates a developer" }

def c9entities : ExtractedEntities :=
  { name := none
    company := none
    role := none
    category := some .developer
    summary := none
    actionItems := []
    isNewPerson := false }

def c10card : PersonCard :=
  { blankCard "card-10" with
    isActive := true
    actionItems := [{ id := "i1", text := "Follow up", createdAt := 0 }] }

def c10state : AppState := { emptyState with activeCard := some c10card }

def c10updates : CardUpdates :=
  { company := some (some "Stripe")
    actionItems := some [] }

/-! Theorems. -/

/-- C2: routeByConfidence, used by both routeUpdate and routeMerge, returns
discard iff the confidence is below 60, suggest iff it is between 60 and 90
inclusive, and auto-apply iff it is above 90, boundary-exact. -/
theorem routeByConfidence_boundary_exact (c : ℚ) (u : ReconciliationUpdate)
    (m : ReconciliationMerge) :
    (routeUpdate u).action = routeByConfidence u.confidence ∧
    (routeMerge m).action = routeByConfidence m.confidence ∧
    (routeByConfidence c = .discard ↔ c < 60) ∧
    (routeByConfidence c = .suggest ↔ 60 ≤ c ∧ c ≤ 90) ∧
    (routeByConfidence c = .autoApply ↔ 90 < c) := by
  refine ⟨rfl, rfl, ?_, ?_, ?_⟩ <;>
    · unfold routeByConfidence
      split_ifs with h1 h2 <;> simp_all <;> linarith

/-- Confidence below 60 routes to discard. -/
theorem routeByConfidence_of_lt60 {c : ℚ} (h : c < 60) : routeByConfidence c = .discard := by
  unfold routeByConfidence
  rw [if_neg (by intro h2; linarith), if_neg (by intro h2; linarith)]

/-- A fold whose every step is the identity returns its start value. -/
theorem foldl_id_of_steps {α β : Type} (f : β → α → β) :
    ∀ (l : List α) (b : β), (∀ x ∈ l, ∀ acc, f acc x = acc) → l.foldl f b = b
  | [], _, _ => rfl
  | y :: ys, b, h => by
    rw [List.foldl_cons, h y (List.mem_cons_self y ys) b]
    exact foldl_id_of_steps f ys b (fun x hx acc => h x (List.mem_cons_of_mem y hx) acc)

/-- C1 counterexample: a suggest-band UpdateProposal (confidence 75) and a
suggest-band MergeProposal (confidence 82) pushed through the reconcile
application loop DO mutate the record state — the update rewrites the active
card's company and the merge rewrites history and tombstones the source. -/
theorem reconcile_suggest_mutates_state :
    routeByConfidence 75 = .suggest ∧
    routeByConfidence 82 = .suggest ∧
    (applyReconcileResult [c1update] [] c1store).state.activeCard.map (fun c => c.company) =
      some (some "Stripe") ∧
    (applyReconcileResult [c1update] [] c1store).state ≠ c1store.state ∧
    (applyReconcileResult [] [c1merge] c1mergeStore).state.historyCards.map (fun c => c.id) =
      ["a"] ∧
    (applyReconcileResult [] [c1merge] c1mergeStore).deletedCardIds = ["b"] := by
  decide

/-- C1 amended: the reconcile loop applies a suggest-band proposal exactly as
it applies an auto-apply-band one; only discard-band proposals (confidence
below 60) leave the record state unchanged. -/
theorem reconcile_only_discard_leaves_state (st : Store)
    (u : ReconciliationUpdate) (m : ReconciliationMerge)
    (updates : List ReconciliationUpdate) (merges : List ReconciliationMerge)
    (hu : routeByConfidence u.confidence = .suggest)
    (hm : routeByConfidence m.confidence = .suggest)
    (hus : ∀ v ∈ updates, v.confidence < 60)
    (hms : ∀ w ∈ merges, w.confidence < 60) :
    applyReconcileResult [u] [m] st =
      applyReconcileResult [{ u with confidence := 95 }] [{ m with confidence := 95 }] st ∧
    applyReconcileResult updates merges st = st := by
  constructor
  · have h95 : routeByConfidence 95 = .autoApply := by decide
    simp [applyReconcileResult, routeUpdate, routeMerge, hu, hm, h95]
  · unfold applyReconcileResult
    dsimp only
    rw [foldl_id_of_steps _ updates st (fun v hv acc => by
      simp [routeUpdate, routeByConfidence_of_lt60 (hus v hv)])]
    exact foldl_id_of_steps _ merges st (fun w hw acc => by
      simp [routeMerge, routeByConfidence_of_lt60 (hms w hw)])

/-- Witness for the C1 amended theorem at concrete inputs. -/
theorem reconcile_only_discard_leaves_state_witness :
    (applyReconcileResult [c1update] [c1merge] c1store =
      applyReconcileResult [{ c1update with confidence := 95 }]
        [{ c1merge with confidence := 95 }] c1store) ∧
    applyReconcileResult [c1discardUpdate] [] c1store = c1store :=
  reconcile_only_discard_leaves_state c1store c1update c1merge [c1discardUpdate] []
    (by decide) (by decide) (by decide) (by decide)

/-- C9 counterexample: an auto-apply reconciliation update carrying a
category change replaces the active card's non-'other' category (founder
becomes developer), so category is not only overwritten while 'other'. -/
theorem reconcile_overwrites_nonother_category :
    c9card.category = .founder ∧
    routeByConfidence 95 = .autoApply ∧
    (applyReconcileResult [c9update] [] c9store).state.activeCard.map (fun c => c.category) =
      some .developer := by
  decide

/-- C9 amended: a record's category starts as 'other', and the merge engine,
the load-time dedup merge, and the in-place candidate application only
overwrite a category while it is currently 'other'; the reconciliation
update application path, however, applies a proposed category
unconditionally. -/
theorem category_fill_if_other_outside_reconcile
    (t s existing card activeCard : PersonCard) (e : ExtractedEntities) (isSelf : Bool)
    (newId : String) (now : Nat) (st : AppState) :
    ((createNewCard newId now st).activeCard.map (fun c => c.category)) = some .other ∧
    (t.category ≠ .other → (mergedCard t s).category = t.category) ∧
    (existing.category ≠ .other → (loadMergeInto existing card).category = existing.category) ∧
    ((buildEntityUpdates e activeCard isSelf).category ≠ none → activeCard.category = .other) := by
  refine ⟨by simp [createNewCard], ?_, ?_, ?_⟩
  · intro h
    unfold mergedCard
    dsimp only
    split_ifs <;> simp [h]
  · intro h
    unfold loadMergeInto
    dsimp only
    split_ifs <;> simp [h]
  · intro h
    by_cases hc : activeCard.category = .other
    · exact hc
    · simp [buildEntityUpdates, hc] at h

/-- Witness for the C9 amended theorem at concrete inputs. -/
theorem category_fill_if_other_witness :
    (mergedCard c4source c4target).category = c4source.category ∧
    (loadMergeInto c4source c4target).category = c4source.category ∧
    c4target.category = .other :=
  have h := category_fill_if_other_outside_reconcile c4source c4target c4source c4target
    c4target c9entities false "n1" 0 emptyState
  ⟨h.2.1 (by decide), h.2.2.1 (by decide), h.2.2.2 (by decide)⟩

/-- C10: updateActiveCard strips any actionItems key from the update map —
the active card's action item list is identical before and after every call —
and with no active card the call leaves the whole state unchanged; the active
card's action item list only ever grows (by appending) through
addActionItem. -/
theorem updateActiveCard_never_touches_actionItems (u : CardUpdates) (s : AppState)
    (text newId : String) (now : Nat) :
    (s.activeCard = none → updateActiveCard u s = s) ∧
    ((updateActiveCard u s).activeCard.map (fun c => c.actionItems) =
      s.activeCard.map (fun c => c.actionItems)) ∧
    ((s.activeCard.map (fun c => c.actionItems)).getD [] <+:
      ((addActionItem text newId now s).activeCard.map (fun c => c.actionItems)).getD []) := by
  refine ⟨?_, ?_, ?_⟩
  · intro h
    simp [updateActiveCard, h]
  · cases hA : s.activeCard with
    | none => simp [updateActiveCard, hA]
    | some a =>
      simp only [updateActiveCard, hA]
      split_ifs <;> simp [applyChanges]
  · cases hA : s.activeCard with
    | none => simp [addActionItem, hA]
    | some a =>
      simp only [addActionItem, hA]
      split_ifs <;> simp [hA]

/-- Witness for the C10 theorem at concrete inputs. -/
theorem updateActiveCard_never_touches_actionItems_witness :
    updateActiveCard c10updates emptyState = emptyState ∧
    ((updateActiveCard c10updates c10state).activeCard.map (fun c => c.actionItems) =
      c10state.activeCard.map (fun c => c.actionItems)) ∧
    ((c10state.activeCard.map (fun c => c.actionItems)).getD [] <+:
      ((addActionItem "Send deck" "i2" 5 c10state).activeCard.map (fun c => c.actionItems)).getD []) :=
  ⟨(updateActiveCard_never_touches_actionItems c10updates emptyState "Send deck" "i2" 5).1 rfl,
   (updateActiveCard_never_touches_actionItems c10updates c10state "Send deck" "i2" 5).2.1,
   (updateActiveCard_never_touches_actionItems c10updates c10state "Send deck" "i2" 5).2.2⟩

/-- A falsy nullable string holds no characters. -/
theorem jsTruthy_false_getD {o : Option String} (h : jsTruthy o = false) : o.getD "" = "" := by
  cases o with
  | none => rfl
  | some s => simpa [jsTruthy] using h

/-- jsOr keeps a truthy left operand. -/
theorem jsOr_pos {a b : Option String} (h : jsTruthy a = true) : jsOr a b = a := by
  simp [jsOr, h]

/-- jsOr falls through a falsy left operand. -/
theorem jsOr_neg {a b : Option String} (h : jsTruthy a = false) : jsOr a b = b := by
  simp [jsOr, h]

/-- The fields of the merged card of mergeCards, before interpretation. -/
theorem mergedCard_proj (t s : PersonCard) :
    (mergedCard t s).name =
      (if optLen t.name ≥ optLen s.name then jsOr t.name s.name else jsOr s.name t.name) ∧
    (mergedCard t s).company = jsOr t.company s.company ∧
    (mergedCard t s).role = jsOr t.role s.role ∧
    (mergedCard t s).category =
      (if t.category ≠ .other then t.category else s.category) ∧
    (mergedCard t s).summary =
      (if jsTruthy t.summary && jsTruthy s.summary then
        some (t.summary.getD "" ++ ". " ++ s.summary.getD "")
      else jsOr t.summary s.summary) ∧
    (mergedCard t s).transcriptSnippet = strOr t.transcriptSnippet s.transcriptSnippet := by
  unfold mergedCard
  dsimp only
  split_ifs <;> simp_all

/-- C4: the merged record's name is the longer of the two names (characters
of a null name counting as none, ties favouring target); company, role and
transcriptSnippet keep a populated target value and fall back to source;
category is target's unless it is 'other'; summary concatenates as
"target. source" when both are present, else keeps whichever is present. -/
theorem mergedCard_field_rules (t s : PersonCard) :
    ((mergedCard t s).name.getD "" =
      if optLen t.name ≥ optLen s.name then t.name.getD "" else s.name.getD "") ∧
    (jsTruthy t.company = true → (mergedCard t s).company = t.company) ∧
    (jsTruthy t.company = false → (mergedCard t s).company = s.company) ∧
    (jsTruthy t.role = true → (mergedCard t s).role = t.role) ∧
    (jsTruthy t.role = false → (mergedCard t s).role = s.role) ∧
    (t.transcriptSnippet ≠ "" → (mergedCard t s).transcriptSnippet = t.transcriptSnippet) ∧
    (t.transcriptSnippet = "" → (mergedCard t s).transcriptSnippet = s.transcriptSnippet) ∧
    (t.category ≠ .other → (mergedCard t s).category = t.category) ∧
    (t.category = .other → (mergedCard t s).category = s.category) ∧
    (jsTruthy t.summary = true → jsTruthy s.summary = true →
      (mergedCard t s).summary = some (t.summary.getD "" ++ ". " ++ s.summary.getD "")) ∧
    (jsTruthy t.summary = true → jsTruthy s.summary = false →
      (mergedCard t s).summary = t.summary) ∧
    (jsTruthy t.summary = false → (mergedCard t s).summary = s.summary) := by
  obtain ⟨hn, hc, hr, hcat, hsum, hsnip⟩ := mergedCard_proj t s
  refine ⟨?_, ?_, ?_, ?_, ?_, ?_, ?_, ?_, ?_, ?_, ?_, ?_⟩
  · rw [hn]
    by_cases h : optLen t.name ≥ optLen s.name
    · rw [if_pos h, if_pos h]
      cases hjt : jsTruthy t.name with
      | true => rw [jsOr_pos hjt]
      | false =>
        rw [jsOr_neg hjt, jsTruthy_false_getD hjt]
        have ht0 : optLen t.name = 0 := by
          unfold optLen
          rw [jsTruthy_false_getD hjt]
          rfl
        have hs0 : (s.name.getD "").length = 0 := by
          have h2 : optLen s.name ≤ optLen t.name := h
          unfold optLen at h2 ht0
          omega
        cases hsd : (s.name.getD "") with
        | mk l =>
          rw [hsd] at hs0
          simp [String.length] at hs0
          simp [hs0]
    · rw [if_neg h, if_neg h]
      have hslen : 0 < optLen s.name := by
        unfold optLen at h ⊢
        omega
      have hst : jsTruthy s.name = true := by
        cases hsn : s.name with
        | none => rw [hsn] at hslen; simp [optLen] at hslen
        | some str =>
          rw [hsn] at hslen
          unfold optLen at hslen
          simp at hslen
          simp [jsTruthy]
          intro he
          rw [he] at hslen
          simp at hslen
      rw [jsOr_pos hst]
  · intro h; rw [hc, jsOr_pos h]
  · intro h; rw [hc, jsOr_neg h]
  · intro h; rw [hr, jsOr_pos h]
  · intro h; rw [hr, jsOr_neg h]
  · intro h; rw [hsnip]; simp [strOr, h]
  · intro h; rw [hsnip]; simp [strOr, h]
  · intro h; rw [hcat, if_pos h]
  · intro h; rw [hcat, if_neg (by simp [h])]
  · intro h1 h2; rw [hsum]; simp [h1, h2]
  · intro h1 h2; rw [hsum]; simp [h1, h2, jsOr_pos h1]
  · intro h1; rw [hsum]; simp [h1, jsOr_neg h1]

/-- Witness for the C4 theorem at concrete cards. -/
theorem mergedCard_field_rules_witness :
    ((mergedCard c4target c4source).name.getD "" =
      if optLen c4target.name ≥ optLen c4source.name then c4target.name.getD ""
      else c4source.name.getD "") ∧
    (mergedCard c4target c4source).company = c4target.company ∧
    (mergedCard c4target c4source).role = c4source.role ∧
    (mergedCard c4target c4source).transcriptSnippet = c4source.transcriptSnippet ∧
    (mergedCard c4target c4source).category = c4source.category ∧
    (mergedCard c4target c4source).summary =
      some (c4target.summary.getD "" ++ ". " ++ c4source.summary.getD "") := by
  obtain ⟨h1, h2, h3, h4, h5, h6, h7, h8, h9, h10, h11, h12⟩ :=
    mergedCard_field_rules c4target c4source
  exact ⟨h1, h2 (by decide), h5 (by decide), h7 (by decide), h9 (by decide),
    h10 (by decide) (by decide)⟩

/-- The action item list of the merged card of mergeCards, before
interpretation. -/
theorem mergedCard_actionItems_proj (t s : PersonCard) :
    (mergedCard t s).actionItems =
      t.actionItems.filter (fun ti => ti.id != "" && ti.text != "") ++
      s.actionItems.filter (fun si =>
        si.id != "" && si.text != "" &&
        !(t.actionItems.any (fun ti => ti.text != "" && jsToLower ti.text == jsToLower si.text))) := by
  unfold mergedCard
  dsimp only
  split_ifs <;> rfl

/-- C5: for well-formed inputs, the merged action item list has no two
entries with case-insensitively equal text, contains every target entry, and
contains every source entry whose text does not case-insensitively match a
target entry's text. -/
theorem mergedCard_actionItems_sound (t s : PersonCard)
    (ht : itemsWellFormed t.actionItems) (hs : itemsWellFormed s.actionItems) :
    ((mergedCard t s).actionItems).Pairwise (fun a b => jsToLower a.text ≠ jsToLower b.text) ∧
    (∀ a ∈ t.actionItems, a ∈ (mergedCard t s).actionItems) ∧
    (∀ a ∈ s.actionItems,
      (∀ b ∈ t.actionItems, jsToLower b.text ≠ jsToLower a.text) →
      a ∈ (mergedCard t s).actionItems) := by
  obtain ⟨htv, htp⟩ := ht
  obtain ⟨hsv, hsp⟩ := hs
  rw [mergedCard_actionItems_proj]
  have htfilter :
      t.actionItems.filter (fun ti => ti.id != "" && ti.text != "") = t.actionItems := by
    apply List.filter_eq_self.mpr
    intro a ha
    have := htv a ha
    simp [this.1, this.2]
  rw [htfilter]
  refine ⟨?_, ?_, ?_⟩
  · rw [List.pairwise_append]
    refine ⟨htp, List.Pairwise.sublist (List.filter_sublist _) hsp, ?_⟩
    intro a ha b hb
    rw [List.mem_filter] at hb
    have hbp := hb.2
    simp only [Bool.and_eq_true, Bool.not_eq_true', List.any_eq_false] at hbp
    have := hbp.2 a ha
    simp only [Bool.and_eq_true, bne_iff_ne, beq_iff_eq] at this
    intro heq
    exact this ⟨(htv a ha).2, heq⟩
  · intro a ha
    exact List.mem_append_left _ ha
  · intro a ha hnone
    apply List.mem_append_right
    rw [List.mem_filter]
    refine ⟨ha, ?_⟩
    have hv := hsv a ha
    simp only [Bool.and_eq_true, bne_iff_ne, beq_iff_eq, Bool.not_eq_true',
      List.any_eq_false]
    refine ⟨⟨hv.1, hv.2⟩, ?_⟩
    intro b hb hcon
    exact hnone b hb hcon.2

/-- Witness for the C5 theorem at concrete cards. -/
theorem mergedCard_actionItems_sound_witness :
    ((mergedCard c5target c5source).actionItems).Pairwise
      (fun a b => jsToLower a.text ≠ jsToLower b.text) ∧
    (∀ a ∈ c5target.actionItems, a ∈ (mergedCard c5target c5source).actionItems) ∧
    (∀ a ∈ c5source.actionItems,
      (∀ b ∈ c5target.actionItems, jsToLower b.text ≠ jsToLower a.text) →
      a ∈ (mergedCard c5target c5source).actionItems) :=
  mergedCard_actionItems_sound c5target c5source (by decide) (by decide)

/-- C6: two records whose normalised names are equal but whose companies are
both present and different are never merged by the load-time local heuristic
pass: the exact-name branch blocks the pair in both orders, the partial-name
branch cannot apply to equal names, and running the pass on the pair keeps
both records untouched with no tombstone. -/
theorem load_dedup_never_merges_diff_company (a b : PersonCard)
    (hname : normName a = normName b)
    (hca : normCompany a ≠ "") (hcb : normCompany b ≠ "")
    (hdiff : normCompany a ≠ normCompany b) :
    exactCompatible a b = false ∧ exactCompatible b a = false ∧
    isPartialNameMatch a b = false ∧ isPartialNameMatch b a = false ∧
    dedupLoadedCards [a, b] = ([a, b], []) := by
  have hab : exactCompatible a b = false := by
    simp [exactCompatible, hca, hcb, hdiff]
  have hba : exactCompatible b a = false := by
    simp [exactCompatible, hca, hcb, Ne.symm hdiff]
  have pab : isPartialNameMatch a b = false := by
    simp [isPartialNameMatch, hname]
  have pba : isPartialNameMatch b a = false := by
    simp [isPartialNameMatch, hname]
  refine ⟨hab, hba, pab, pba, ?_⟩
  by_cases hk : normName a = ""
  · have hkb : normName b = "" := hname ▸ hk
    simp [dedupLoadedCards, loadDedupStep, hk, hkb]
  · have hkb : ¬ (normName b = "") := fun h => hk (hname.trans h)
    simp [dedupLoadedCards, loadDedupStep, hk, hkb, ← hname, List.lookup, hba, pba, setAssoc]

/-- Witness for the C6 theorem: Priya Sharma at Apple vs Priya Sharma at
Google survive the pass untouched. -/
theorem load_dedup_never_merges_diff_company_witness :
    exactCompatible c6cardApple c6cardGoogle = false ∧
    exactCompatible c6cardGoogle c6cardApple = false ∧
    isPartialNameMatch c6cardApple c6cardGoogle = false ∧
    isPartialNameMatch c6cardGoogle c6cardApple = false ∧
    dedupLoadedCards [c6cardApple, c6cardGoogle] = ([c6cardApple, c6cardGoogle], []) :=
  load_dedup_never_merges_diff_company c6cardApple c6cardGoogle
    (by decide) (by decide) (by decide) (by decide)

/-- A string prefix is no longer than the whole. -/
theorem strIsPrefixOf_length {p s : String} (h : strIsPrefixOf p s = true) :
    p.length ≤ s.length := by
  unfold strIsPrefixOf at h
  exact (List.isPrefixOf_iff_prefix.mp h).length_le

/-- The name of the load-time merged card is the one kept by keepName. -/
theorem loadMergeInto_name (existing card : PersonCard) :
    (loadMergeInto existing card).name =
      (if optLen existing.name ≥ optLen card.name then existing.name else card.name) := by
  unfold loadMergeInto
  dsimp only
  split_ifs <;> rfl

/-- C7: two records where one normalised name is a whitespace-prefix of the
other, confirmed by equal present companies or equal present roles, are
merged by the load-time local heuristic pass into a single record whose name
is the longer of the two names (ties favouring the earlier record), the
other record's id being marked deleted. -/
theorem load_dedup_merges_prefix_name (a b : PersonCard)
    (hpref :
      (normName a ≠ "" ∧ strIsPrefixOf (normName a ++ " ") (normName b) = true) ∨
      (normName b ≠ "" ∧ strIsPrefixOf (normName b ++ " ") (normName a) = true))
    (hconfirm :
      (normCompany a ≠ "" ∧ normCompany a = normCompany b) ∨
      (normRole a ≠ "" ∧ normRole a = normRole b)) :
    (dedupLoadedCards [a, b]).1.map (fun c => c.name) =
      [if optLen a.name ≥ optLen b.name then a.name else b.name] ∧
    (dedupLoadedCards [a, b]).2 = [b.id] := by
  have hkey : normName a ≠ "" ∧ normName b ≠ "" ∧ normName b ≠ normName a ∧
      isPartialNameMatch b a = true := by
    rcases hpref with ⟨ha, hp⟩ | ⟨hb, hp⟩
    · have hl : (normName a).length + 1 ≤ (normName b).length := by
        have h2 := strIsPrefixOf_length hp
        rw [String.length_append] at h2
        simpa using h2
      have hkB : normName b ≠ "" := by
        intro h
        rw [h] at hl
        simp at hl
      have hne2 : normName b ≠ normName a := by
        intro h
        rw [h] at hl
        omega
      have hnl : ¬ ((normName b).length < (normName a).length) := by omega
      refine ⟨ha, hkB, hne2, ?_⟩
      rcases hconfirm with ⟨hcne, hceq⟩ | ⟨hrne, hreq⟩
      · simp [isPartialNameMatch, hkB, ha, hne2, hnl, hp, ← hceq, hcne]
      · simp [isPartialNameMatch, hkB, ha, hne2, hnl, hp, ← hreq, hrne]
    · have hl : (normName b).length + 1 ≤ (normName a).length := by
        have h2 := strIsPrefixOf_length hp
        rw [String.length_append] at h2
        simpa using h2
      have hkA : normName a ≠ "" := by
        intro h
        rw [h] at hl
        simp at hl
      have hne2 : normName b ≠ normName a := by
        intro h
        rw [h] at hl
        omega
      have hnl : (normName b).length < (normName a).length := by omega
      refine ⟨hkA, hb, hne2, ?_⟩
      rcases hconfirm with ⟨hcne, hceq⟩ | ⟨hrne, hreq⟩
      · simp [isPartialNameMatch, hkA, hb, hne2, hnl, hp, ← hceq, hcne]
      · simp [isPartialNameMatch, hkA, hb, hne2, hnl, hp, ← hreq, hrne]
  obtain ⟨hkA, hkB, hne2, hpba⟩ := hkey
  have hbeq : (normName b == normName a) = false := by simp [hne2]
  constructor
  · simp [dedupLoadedCards, loadDedupStep, hkA, hkB, hne2, Ne.symm hne2, hbeq,
      List.lookup, hpba, loadMergeInto_name, setAssoc]
  · simp [dedupLoadedCards, loadDedupStep, hkA, hkB, hne2, Ne.symm hne2, hbeq,
      List.lookup, hpba, setAssoc]

/-- Witness for the C7 theorem: Kwame at Figma and Kwame Asante at Figma
merge, and the merged record is named Kwame Asante. -/
theorem load_dedup_merges_prefix_name_witness :
    ((dedupLoadedCards [c7cardShort, c7cardLong]).1.map (fun c => c.name) =
      [if optLen c7cardShort.name ≥ optLen c7cardLong.name then c7cardShort.name
       else c7cardLong.name] ∧
    (dedupLoadedCards [c7cardShort, c7cardLong]).2 = [c7cardLong.id]) ∧
    (dedupLoadedCards [c7cardShort, c7cardLong]).1.map (fun c => c.name) =
      [some "Kwame Asante"] :=
  ⟨load_dedup_merges_prefix_name c7cardShort c7cardLong (by decide) (by decide), by decide⟩

/-- Membership through stable insertion. -/
theorem mem_insertScored {x y : ScoredMatch} {l : List ScoredMatch} :
    y ∈ insertScored x l ↔ y = x ∨ y ∈ l := by
  induction l with
  | nil => simp [insertScored]
  | cons z zs ih =>
    unfold insertScored
    split_ifs <;> (simp [ih]; try tauto)

/-- Membership through the stable descending sort. -/
theorem mem_sortByScoreDesc {l : List ScoredMatch} {y : ScoredMatch} :
    y ∈ sortByScoreDesc l ↔ y ∈ l := by
  have key : ∀ (l : List ScoredMatch) (acc : List ScoredMatch),
      (y ∈ l.foldl (fun acc x => insertScored x acc) acc ↔ y ∈ acc ∨ y ∈ l) := by
    intro l
    induction l with
    | nil => simp
    | cons z zs ih =>
      intro acc
      rw [List.foldl_cons, ih, mem_insertScored]
      simp
      tauto
  unfold sortByScoreDesc
  rw [key l []]
  simp

/-- Every entry the scorer returns is a card with a truthy name. -/
theorem scoreCards_name_truthy (d : String) (cards : List PersonCard) :
    ∀ s ∈ scoreCardsAgainstQuery d cards, jsTruthy s.card.name = true := by
  intro s hs
  unfold scoreCardsAgainstQuery at hs
  dsimp only at hs
  split_ifs at hs
  · simp at hs
  · simp at hs
  · rw [mem_sortByScoreDesc] at hs
    obtain ⟨card, hcard, heq⟩ := List.mem_filterMap.mp hs
    have hname := (List.mem_filter.mp hcard).2
    split_ifs at heq
    cases heq
    exact hname

/-- C8 counterexample: with the committed match still scoring 20 and a new
top score of 26 — exactly 1.3 × 20, equal to and not exceeding the switch
threshold — the resolver abandons the committed match and returns the new
top card. -/
theorem resolver_switches_at_exact_threshold :
    (scoreCardsAgainstQuery c8desc c8cards).map (fun s => (s.card.name, s.score)) =
      [(some "Bora Kim", 26), (some "Priya Desai", 20)] ∧
    ¬ ((26 : ℚ) > (13 / 10) * 20) ∧
    resolveVoiceQueryToName c8desc c8cards (some "Priya Desai") = some "Bora Kim" := by
  have hscored : scoreCardsAgainstQuery c8desc c8cards =
      [{ card := c8cardB, score := 26 }, { card := c8cardP, score := 20 }] := by
    decide
  refine ⟨by rw [hscored]; decide, by norm_num, ?_⟩
  unfold resolveVoiceQueryToName
  rw [hscored]
  dsimp only
  rw [if_neg (by decide), if_pos (by decide),
    show List.find?
        (fun s => decide (s.card.name = some "Priya Desai"))
        [{ card := c8cardB, score := 26 }, ({ card := c8cardP, score := 20 } : ScoredMatch)] =
      some { card := c8cardP, score := 20 } from by decide]
  dsimp only
  rw [if_neg (by norm_num), if_neg (by norm_num)]
  decide

/-- C8 amended: when a committed previous match still scores among the
candidates, the resolver returns a different name only when the new top
score is at least (not strictly above) 1.3 times the previous match's
current score. -/
theorem resolver_switch_needs_130_percent
    (fullDescription : String) (cards : List PersonCard)
    (previousMatchName : Option String) (n : String) (previousEntry : ScoredMatch)
    (hfind : (scoreCardsAgainstQuery fullDescription cards).find?
        (fun s => s.card.name = previousMatchName) = some previousEntry)
    (hres : resolveVoiceQueryToName fullDescription cards previousMatchName = some n)
    (hswitch : some n ≠ previousMatchName) :
    ∃ best rest, scoreCardsAgainstQuery fullDescription cards = best :: rest ∧
      best.card.name = some n ∧
      (previousEntry.score : ℚ) * (13 / 10) ≤ (best.score : ℚ) := by
  have hmem0 : previousEntry ∈ scoreCardsAgainstQuery fullDescription cards :=
    List.mem_of_find?_eq_some hfind
  have hpredeq : previousEntry.card.name = previousMatchName := by
    have := List.find?_some hfind
    simpa using this
  have htruthy : jsTruthy previousMatchName = true := by
    rw [← hpredeq]
    exact scoreCards_name_truthy _ _ previousEntry hmem0
  unfold resolveVoiceQueryToName at hres
  rcases hscored : scoreCardsAgainstQuery fullDescription cards with _ | ⟨best, rest⟩
  · rw [hscored] at hres
    simp at hres
  · rw [hscored] at hres
    rw [hscored] at hfind
    dsimp only at hres
    rw [hfind] at hres
    dsimp only at hres
    rcases rest with _ | ⟨second, rest2⟩ <;> dsimp only at hres <;>
      split_ifs at hres with h15 hc1 hstick
    all_goals first
    | (exact Option.noConfusion hres)
    | (exact absurd hres.symm hswitch)
    | · refine ⟨best, _, rfl, hres, ?_⟩
        simp only [decide_eq_true_eq] at hstick
        exact not_lt.mp hstick
    | · exfalso
        have h2 : best.card.name = previousMatchName := by
          simpa [htruthy] using hc1
        rw [h2] at hres
        exact hswitch hres.symm

/-- Witness for the C8 amended theorem at the concrete fixture. -/
theorem resolver_switch_needs_130_percent_witness :
    ∃ best rest, scoreCardsAgainstQuery c8desc c8cards = best :: rest ∧
      best.card.name = some "Bora Kim" ∧
      ((({ card := c8cardP, score := 20 } : ScoredMatch).score : ℚ) * (13 / 10) ≤
        (best.score : ℚ)) := by
  have hres : resolveVoiceQueryToName c8desc c8cards (some "Priya Desai") = some "Bora Kim" := by
    have hscored : scoreCardsAgainstQuery c8desc c8cards =
        [{ card := c8cardB, score := 26 }, { card := c8cardP, score := 20 }] := by
      decide
    unfold resolveVoiceQueryToName
    rw [hscored]
    dsimp only
    rw [if_neg (by decide), if_pos (by decide),
      show List.find? (fun s => decide (s.card.name = some "Priya Desai"))
          [{ card := c8cardB, score := 26 }, ({ card := c8cardP, score := 20 } : ScoredMatch)] =
        some { card := c8cardP, score := 20 } from by decide]
    dsimp only
    rw [if_neg (by norm_num), if_neg (by norm_num)]
    decide
  exact resolver_switch_needs_130_percent c8desc c8cards (some "Priya Desai") "Bora Kim"
    { card := c8cardP, score := 20 } (by decide) hres (by decide)

/-- C3 counterexample: after cards x and t (same person at Stripe) merge,
x is tombstoned and gone from the record state; but a loadFromDatabase whose
rows still contain x's row re-creates x in history, and the load-time local
heuristic pass even merges the Priya Sharma row into the resurrected x,
writing to the tombstoned id. -/
theorem load_resurrects_tombstoned_id :
    "x" ∈ c3store1.deletedCardIds ∧ presentB c3store1.state "x" = false ∧
    "x" ∈ c3store2.deletedCardIds ∧ presentB c3store2.state "x" = true ∧
    c3store2.state.historyCards.map (fun c => (c.id, c.name)) =
      [("x", some "Priya Sharma")] := by
  decide

/-- Membership in the deleted set survives further markCardDeleted calls. -/
theorem mem_markCardDeleted {x : String} (y : String) {d : List String} (h : x ∈ d) :
    x ∈ markCardDeleted y d := by
  unfold markCardDeleted
  split_ifs
  · exact h
  · exact List.mem_cons_of_mem _ h

/-- Absence of an id from the record state, spelled out. -/
theorem presentB_false_iff {s : AppState} {x : String} :
    presentB s x = false ↔
      (∀ a ∈ s.activeCard, a.id ≠ x) ∧ (∀ c ∈ s.historyCards, c.id ≠ x) := by
  unfold presentB
  cases hA : s.activeCard <;> simp [hA]

/-- mergedCard keeps the target's id. -/
theorem mergedCard_id (t s : PersonCard) : (mergedCard t s).id = t.id := by
  unfold mergedCard
  dsimp only
  split_ifs <;> rfl

/-- applyChanges keeps the card's id. -/
theorem applyChanges_id (card : PersonCard) (u : CardUpdates) :
    (applyChanges card u).id = card.id := rfl

/-- updateActiveCard keeps the active card's id and does not touch history
or the rest of the state. -/
theorem updateActiveCard_frame (u : CardUpdates) (s : AppState) :
    (updateActiveCard u s).activeCard.map (fun a => a.id) =
      s.activeCard.map (fun a => a.id) ∧
    (updateActiveCard u s).historyCards = s.historyCards := by
  cases hA : s.activeCard with
  | none => simp [updateActiveCard, hA]
  | some a =>
    simp only [updateActiveCard, hA]
    split_ifs <;> simp [applyChanges]

/-- mergeCards never revives a tombstoned id that is absent from the state,
and keeps it tombstoned. -/
theorem mergeCards_preserves_tombstone (src tgt x : String) (st : Store)
    (hdel : x ∈ st.deletedCardIds) (habs : presentB st.state x = false) :
    x ∈ (mergeCards src tgt st).deletedCardIds ∧
    presentB (mergeCards src tgt st).state x = false := by
  obtain ⟨hact, hhist⟩ := presentB_false_iff.mp habs
  unfold mergeCards
  dsimp only
  split
  case _ sourceCard targetCard hfs hft =>
    have htid : targetCard.id = tgt := by simpa using List.find?_some hft
    have htmem := List.mem_of_find?_eq_some hft
    have htgtx : tgt ≠ x := by
      rw [← htid]
      rcases List.mem_append.mp htmem with hmem | hmem
      · cases hA : st.state.activeCard with
        | none => rw [hA] at hmem; simp at hmem
        | some a =>
          rw [hA] at hmem
          simp at hmem
          rw [hmem]
          exact hact a (by rw [hA]; rfl)
      · exact hhist _ hmem
    have hmap : ∀ c ∈ st.state.historyCards,
        (if c.id = tgt then mergedCard targetCard sourceCard else c).id ≠ x := by
      intro c hc
      split_ifs
      · rw [mergedCard_id, htid]
        exact htgtx
      · exact hhist c hc
    refine ⟨mem_markCardDeleted _ hdel, ?_⟩
    split_ifs with h1 h2
    · rw [presentB_false_iff]
      constructor
      · intro a ha
        simp at ha
        rw [← ha, mergedCard_id, htid]
        exact htgtx
      · intro c hc
        exact hhist c (List.mem_of_mem_filter hc)
    · rw [presentB_false_iff]
      refine ⟨by simp, ?_⟩
      intro c hc
      obtain ⟨c0, hc0, rfl⟩ := List.mem_map.mp (List.mem_of_mem_filter hc)
      exact hmap c0 hc0
    · rw [presentB_false_iff]
      refine ⟨hact, ?_⟩
      intro c hc
      obtain ⟨c0, hc0, rfl⟩ := List.mem_map.mp (List.mem_of_mem_filter hc)
      exact hmap c0 hc0
  case _ =>
    exact ⟨hdel, habs⟩

/-- Presence only depends on the ids in the state. -/
theorem presentB_eq_of_ids {s1 s2 : AppState} {x : String}
    (hact : s1.activeCard.map (fun a => a.id) = s2.activeCard.map (fun a => a.id))
    (hhist : s1.historyCards.map (fun c => c.id) = s2.historyCards.map (fun c => c.id)) :
    presentB s1 x = presentB s2 x := by
  unfold presentB
  have h1 : ∀ (o : Option PersonCard),
      o.any (fun a => decide (a.id = x)) =
        (o.map (fun a => a.id)).any (fun i => decide (i = x)) := by
    intro o
    cases o <;> rfl
  have h2 : ∀ (l : List PersonCard),
      l.any (fun a => decide (a.id = x)) =
        (l.map (fun a => a.id)).any (fun i => decide (i = x)) := by
    intro l
    induction l with
    | nil => rfl
    | cons c cs ih => simp [ih]
  rw [h1, h2, hact, hhist, ← h1, ← h2]

/-- A fold over a list preserves an invariant preserved by every step. -/
theorem foldl_preserves {α β : Type} (P : β → Prop) (f : β → α → β) (l : List α) (b : β)
    (h : ∀ acc a, P acc → P (f acc a)) (hb : P b) : P (l.foldl f b) := by
  induction l generalizing b with
  | nil => exact hb
  | cons y ys ih => exact ih _ (h b y hb)

/-- The reconcile application loop never revives a tombstoned absent id. -/
theorem applyReconcileResult_preserves_tombstone
    (us : List ReconciliationUpdate) (ms : List ReconciliationMerge) (st : Store) (x : String)
    (hdel : x ∈ st.deletedCardIds) (habs : presentB st.state x = false) :
    x ∈ (applyReconcileResult us ms st).deletedCardIds ∧
    presentB (applyReconcileResult us ms st).state x = false := by
  unfold applyReconcileResult
  dsimp only
  apply foldl_preserves (fun acc : Store =>
    x ∈ acc.deletedCardIds ∧ presentB acc.state x = false)
  · intro acc m _hP
    split_ifs
    · exact _hP
    · exact mergeCards_preserves_tombstone _ _ _ _ _hP.1 _hP.2
  · apply foldl_preserves (fun acc : Store =>
      x ∈ acc.deletedCardIds ∧ presentB acc.state x = false)
    · intro acc u hP
      split_ifs
      · exact hP
      · refine ⟨hP.1, ?_⟩
        have hfr := updateActiveCard_frame u.changes acc.state
        exact (presentB_eq_of_ids hfr.1 (by rw [hfr.2])).trans hP.2
      · refine ⟨hP.1, ?_⟩
        have hids : (acc.state.historyCards.map (fun card =>
            if card.id = u.cardId then applyChanges card u.changes else card)).map
              (fun c => c.id) = acc.state.historyCards.map (fun c => c.id) := by
          rw [List.map_map]
          apply List.map_congr_left
          intro c _
          simp only [Function.comp]
          split_ifs <;> simp [applyChanges_id]
        have heq : presentB { acc.state with historyCards := (acc.state.historyCards.map (fun card => if card.id = u.cardId then applyChanges card u.changes else card)) } x = presentB acc.state x :=
          presentB_eq_of_ids rfl hids
        exact heq.trans hP.2
    · exact ⟨hdel, habs⟩

/-- C3 amended: once an id has been merged away (tombstoned) and is gone from
the record state, no in-memory engine operation — candidate application,
reconcile application, dedup-agent merges, merges, session transitions — ever
re-creates or writes it (fresh card ids being fresh), and the auto-persist
path refuses to write it; loadFromDatabase, by contrast, is not gated on the
tombstone set (see the counterexample). -/
theorem tombstone_permanent_in_memory (op : StoreOp) (st : Store) (x : String)
    (card : PersonCard) (versions : List (String × CardFingerprint))
    (sid uid : Option String)
    (hdel : x ∈ st.deletedCardIds)
    (habs : presentB st.state x = false)
    (hfresh : opFreshCardId op ≠ some x) :
    (x ∈ (runOp op st).deletedCardIds ∧ presentB (runOp op st).state x = false) ∧
    (card.id = x → persistCard st.deletedCardIds versions card sid uid = none) := by
  obtain ⟨hact, hhist⟩ := presentB_false_iff.mp habs
  constructor
  · cases op with
    | createCard i n =>
      refine ⟨hdel, ?_⟩
      have hix : i ≠ x := by
        intro h
        exact hfresh (by simp [opFreshCardId, h])
      rw [presentB_false_iff]
      constructor
      · intro a ha
        simp only [runOp, createNewCard] at ha
        simp at ha
        rw [← ha]
        exact hix
      · intro c hc
        simp only [runOp, createNewCard] at hc
        cases hA : st.state.activeCard with
        | none =>
          rw [hA] at hc
          simp at hc
          exact hhist c hc
        | some a =>
          rw [hA] at hc
          simp at hc
          rcases hc with hc | hc
          · rw [hc]
            exact hact a (by rw [hA]; rfl)
          · exact hhist c hc
    | updateActive u =>
      refine ⟨hdel, ?_⟩
      have hfr := updateActiveCard_frame u st.state
      exact (presentB_eq_of_ids hfr.1 (by rw [hfr.2])).trans habs
    | addAction t i n =>
      refine ⟨hdel, ?_⟩
      have heq : presentB (addActionItem t i n st.state) x = presentB st.state x := by
        apply presentB_eq_of_ids
        · cases hA : st.state.activeCard with
          | none => simp [addActionItem, hA]
          | some a =>
            simp only [addActionItem, hA]
            split_ifs <;> simp [hA]
        · cases hA : st.state.activeCard with
          | none => simp [addActionItem, hA]
          | some a =>
            simp only [addActionItem, hA]
            split_ifs <;> simp [hA]
      exact heq.trans habs
    | moveToHistory =>
      refine ⟨hdel, ?_⟩
      rw [presentB_false_iff]
      simp only [runOp]
      cases hA : st.state.activeCard with
      | none => exact presentB_false_iff.mp (by simpa [moveActiveToHistory, hA] using habs)
      | some a =>
        constructor
        · intro b hb
          simp [moveActiveToHistory, hA] at hb
        · intro c hc
          simp only [moveActiveToHistory, hA] at hc
          simp at hc
          rcases hc with hc | hc
          · rw [hc]
            exact hact a (by rw [hA]; rfl)
          · exact hhist c hc
    | sessionEnd =>
      refine ⟨hdel, ?_⟩
      rw [presentB_false_iff]
      simp only [runOp]
      constructor
      · intro b hb
        simp [endSession] at hb
      · intro c hc
        simp only [endSession] at hc
        cases hA : st.state.activeCard with
        | none =>
          rw [hA] at hc
          simp at hc
          exact hhist c hc
        | some a =>
          rw [hA] at hc
          simp at hc
          rcases hc with hc | hc
          · rw [hc]
            exact hact a (by rw [hA]; rfl)
          · exact hhist c hc
    | transcript t =>
      refine ⟨hdel, ?_⟩
      have heq : presentB (setTranscript t st.state) x = presentB st.state x := by
        apply presentB_eq_of_ids
        · cases hA : st.state.activeCard <;> simp [setTranscript, hA]
        · simp [setTranscript]
      exact heq.trans habs
    | sessionMerge e cid f n =>
      refine ⟨hdel, ?_⟩
      have heq : presentB (sessionMergeEntities e cid f n st.state) x = presentB st.state x := by
        apply presentB_eq_of_ids
        · simp [sessionMergeEntities]
        · simp only [sessionMergeEntities]
          rw [List.map_map]
          apply List.map_congr_left
          intro c _
          simp only [Function.comp]
          split_ifs <;> rfl
      exact heq.trans habs
    | merge s t => exact mergeCards_preserves_tombstone _ _ _ _ hdel habs
    | reconcile us ms => exact applyReconcileResult_preserves_tombstone _ _ _ _ hdel habs
    | dedupAgent ms =>
      simp only [runOp]
      unfold runDedupMerges
      have := foldl_preserves
        (fun acc : List String × Store =>
          x ∈ acc.2.deletedCardIds ∧ presentB acc.2.state x = false)
        (fun acc m => dedupMergeStep acc.1 acc.2 m) ms ([], st)
        (by
          intro acc m hP
          dsimp only
          unfold dedupMergeStep
          dsimp only
          split_ifs
          · exact hP
          · exact hP
          · exact mergeCards_preserves_tombstone _ _ _ _ hP.1 hP.2
          · exact hP)
        ⟨hdel, habs⟩
      exact this
  · intro hc
    have : isCardDeleted card.id st.deletedCardIds = true := by
      unfold isCardDeleted
      rw [hc]
      simpa using hdel
    unfold persistCard
    rw [if_pos this]

/-- Witness for the C3 amended theorem at a concrete store and operation. -/
theorem tombstone_permanent_in_memory_witness :
    ("x" ∈ (runOp (StoreOp.createCard "n2" 7) c3store1).deletedCardIds ∧
      presentB (runOp (StoreOp.createCard "n2" 7) c3store1).state "x" = false) ∧
    (c3cardX.id = "x" →
      persistCard c3store1.deletedCardIds [] c3cardX (some "s1") (some "u1") = none) :=
  tombstone_permanent_in_memory (StoreOp.createCard "n2" 7) c3store1 "x" c3cardX []
    (some "s1") (some "u1") (by decide) (by decide) (by decide)

end NetworkingWingman
